import Mathlib

/-
Verification of the tfmigrate state-migration engine specification against
the sources.  We shallowly embed:

  * the plan-JSON model and classifier (tfexec/terraform_plan_json.go),
  * the plan/apply decision logic and push phase of the multi-state migrator
    (tfmigrate/multi_state_migrator.go),
  * the history runner (command/history_runner.go is not among the sources;
    its behaviour is modelled from spec.md section 4.7, which the test file
    command/history_runner_test.go exercises).

Dynamic JSON values (`interface\x7b\x7d` in Go) become the inductive `JSON`;
Go maps decoded from JSON become association lists with pairwise-distinct
keys, and `reflect.DeepEqual` becomes the key-order-insensitive `deepEqual`.
-/

set_option autoImplicit false

namespace TfMigrate

/-- Dynamic JSON value, the shallow embedding of a decoded Go `interface`
value appearing in `Change.Before` / `Change.After`.  Numbers are modelled
as integers (the classifier only ever compares scalars for equality). -/
inductive JSON where
  | null
  | bool (b : Bool)
  | num (n : Int)
  | str (s : String)
  | arr (xs : List JSON)
  | obj (fields : List (String × JSON))

/-- First-match lookup in an association list keyed by strings; the
embedding of Go map indexing `m[key]` (decoded JSON maps have distinct
keys, so first match is the match). -/
def lookupKey {α : Type} (k : String) : List (String × α) → Option α
  | [] => none
  | (k2, v) :: rest => if k == k2 then some v else lookupKey k rest

mutual
/-- Embedding of `reflect.DeepEqual` on decoded JSON values: structural
equality, with object fields compared as unordered maps. -/
def deepEqual : JSON → JSON → Bool
  | JSON.null, JSON.null => true
  | JSON.bool a, JSON.bool b => a == b
  | JSON.num a, JSON.num b => a == b
  | JSON.str a, JSON.str b => a == b
  | JSON.arr xs, JSON.arr ys => deepEqualList xs ys
  | JSON.obj xs, JSON.obj ys => xs.length == ys.length && deepEqualFields xs ys
  | _, _ => false
termination_by a b => sizeOf a + sizeOf b

/-- Elementwise `deepEqual` of two JSON arrays. -/
def deepEqualList : List JSON → List JSON → Bool
  | [], [] => true
  | x :: xs, y :: ys => deepEqual x y && deepEqualList xs ys
  | _, _ => false
termination_by xs ys => sizeOf xs + sizeOf ys

/-- Every field of the first object occurs in the second with a
`deepEqual` value (with equal lengths this is Go's map `DeepEqual`). -/
def deepEqualFields : List (String × JSON) → List (String × JSON) → Bool
  | [], _ => true
  | (k, v) :: rest, ys => deepEqualValueAt k v ys && deepEqualFields rest ys
termination_by xs ys => sizeOf xs + sizeOf ys

/-- `deepEqualValueAt k v ys` holds when `ys` maps `k` to a value
`deepEqual` to `v`. -/
def deepEqualValueAt : String → JSON → List (String × JSON) → Bool
  | _, _, [] => false
  | k, v, (k2, v2) :: rest =>
    if k == k2 then deepEqual v v2 else deepEqualValueAt k v rest
termination_by _ v ys => sizeOf v + sizeOf ys
end

/-- `Change` from tfexec/terraform_plan_json.go: actions with before/after
values. -/
structure Change where
  actions : List String
  before : JSON
  after : JSON

/-- `ResourceChange` from tfexec/terraform_plan_json.go (fields the
classifier never reads are kept as plain strings). -/
structure ResourceChange where
  address : String
  mode : String
  rcType : String
  rcName : String
  change : Change

/-- `TerraformPlanJSON` from tfexec/terraform_plan_json.go; `OutputChanges`
is a map `output name -> change`. -/
structure TerraformPlanJSON where
  formatVersion : String
  resourceChanges : List ResourceChange
  outputChanges : List (String × Change)

/-- `HasChanges` (terraform_plan_json.go): some resource change whose
actions are not exactly `[no-op]`. -/
def hasChanges (p : TerraformPlanJSON) : Bool :=
  p.resourceChanges.any fun rc => !(rc.change.actions == ["no-op"])

/-- `HasOnlyOutputChanges` (terraform_plan_json.go): output changes are
present and every resource change is a `no-op`. -/
def hasOnlyOutputChanges (p : TerraformPlanJSON) : Bool :=
  let hasOutputChanges : Bool := decide (0 < p.outputChanges.length)
  (p.resourceChanges.all fun rc => rc.change.actions == ["no-op"]) && hasOutputChanges

/-- The hard-coded tag-field set of `isTagOnlyChange`
(terraform_plan_json.go line 132). -/
def tagFields : List String :=
  ["tags", "tags_all", "tag", "user_tags", "system_tags", "default_tags"]

/-- `isTagField` (terraform_plan_json.go): membership in the tag-field
set. -/
def isTagField (fieldName : String) (tfs : List String) : Bool :=
  tfs.any fun t => fieldName == t

/-- `isTagOnlyChange` (terraform_plan_json.go): both sides must be
mappings; a removed or changed key must be a tag field (first loop), and
an added key must be a tag field (second loop). -/
def isTagOnlyChange (rc : ResourceChange) : Bool :=
  match rc.change.before, rc.change.after with
  | JSON.obj beforeMap, JSON.obj afterMap =>
    (beforeMap.all fun kv =>
      match lookupKey kv.1 afterMap with
      | none => isTagField kv.1 tagFields
      | some afterVal => deepEqual kv.2 afterVal || isTagField kv.1 tagFields)
    &&
    (afterMap.all fun kv =>
      match lookupKey kv.1 beforeMap with
      | some _ => true
      | none => isTagField kv.1 tagFields)
  | _, _ => false

/-- `HasOnlySafeActions` (terraform_plan_json.go): every resource change
is a `no-op`, a `create`, or a tag-only `update`. -/
def hasOnlySafeActions (p : TerraformPlanJSON) : Bool :=
  p.resourceChanges.all fun rc =>
    if rc.change.actions == ["no-op"] then true
    else if rc.change.actions == ["create"] then true
    else if rc.change.actions == ["update"] && isTagOnlyChange rc then true
    else false

/-- Pairwise-distinct keys of an association list; decoded Go maps always
satisfy this. -/
def keysNodup {α : Type} : List (String × α) → Bool
  | [] => true
  | (k, _) :: rest => !(rest.any fun e => e.1 == k) && keysNodup rest

/-- A JSON value that, when it is an object, has pairwise-distinct keys
(non-objects are unconstrained).  Every value decoded from a Go map
satisfies this. -/
def objNodup : JSON → Bool
  | JSON.obj fs => keysNodup fs
  | _ => true

/-- Stated from the spec's words (for comparison with `isTagOnlyChange`):
key `k` differs between the two mappings — its value changed (under
structural deep equality), or it was added, or it was removed. -/
def specDiffersAt (bs as2 : List (String × JSON)) (k : String) : Prop :=
  match lookupKey k bs, lookupKey k as2 with
  | some v, some w => deepEqual v w = false
  | some _, none => True
  | none, some _ => True
  | none, none => False

/-- Stated from the spec's words (for comparison with `isTagOnlyChange`):
a change is tag-only when both `before` and `after` are mappings and
every key whose value differs (changed, added, or removed) is in the
tag-field set. -/
def specTagOnly (rc : ResourceChange) : Prop :=
  ∃ bs as2, rc.change.before = JSON.obj bs ∧ rc.change.after = JSON.obj as2 ∧
    ∀ k, specDiffersAt bs as2 k → isTagField k tagFields = true

/-- Outcome of running `terraform plan -detailed-exitcode`, as seen by
`checkPlan` (multi_state_migrator.go): no error, an `ExitError` with exit
code 2 (diffs present), or any other error. -/
inductive PlanErr where
  | ok
  | exitTwo
  | other
deriving DecidableEq

/-- `checkPlan` (multi_state_migrator.go lines 229-268), reduced to its
accept/reject verdict.  On exit code 2 the plan JSON is parsed (`none`
models a parse failure) and the plan is accepted when it has no changes,
or when `allowCreate` is set and it has only safe actions. -/
def checkPlan (planJSON : Option TerraformPlanJSON) (er : PlanErr)
    (allowCreate : Bool) : Bool :=
  match er with
  | PlanErr.ok => true
  | PlanErr.exitTwo =>
    match planJSON with
    | none => false
    | some pj =>
      if !(hasChanges pj) then true
      else if allowCreate && hasOnlySafeActions pj then true
      else false
  | PlanErr.other => false

/-- Verdict of `MultiStateMigrator.plan` (multi_state_migrator.go lines
180-224) as a function of the two `checkPlan` verdicts: a source-side
(`from_dir`) rejection is an error unconditionally, while a
destination-side (`to_dir`) rejection is forgiven exactly when `force`
is set. -/
def multiStatePlanOk (fromSkipPlan toSkipPlan force fromClean toClean : Bool) : Bool :=
  if !fromSkipPlan && !fromClean then false
  else if !toSkipPlan && !toClean then force
  else true

/-- Base plan options built by `MultiStateMigrator.plan`
(multi_state_migrator.go lines 174-178). -/
def basePlanOptions (planOut : String) : List String :=
  let base := ["-input=false", "-no-color", "-detailed-exitcode"]
  if planOut != "" then base ++ ["-out=" ++ planOut] else base

/-- Options passed to the source-side plan (multi_state_migrator.go lines
183-188): the base options, plus a `-target` when `from_tf_target` is
non-empty. -/
def fromPlanOptions (basePlanOpts : List String) (fromTfTarget : String) : List String :=
  if fromTfTarget != "" then basePlanOpts ++ ["-target=" ++ fromTfTarget]
  else basePlanOpts

/-- Options passed to the destination-side plan (multi_state_migrator.go
lines 204-206): a plain copy of the base options. -/
def toPlanOptions (basePlanOpts : List String) : List String := basePlanOpts

/-- The two remote state pushes of `MultiStateMigrator.Apply`. -/
inductive PushTarget where
  | sourceState
  | destState
deriving DecidableEq

/-- The remote states of the two backends, as sets of resource
addresses. -/
structure RemotePair where
  fromRemote : List String
  toRemote : List String
deriving DecidableEq

/-- Push phase of `MultiStateMigrator.Apply` (multi_state_migrator.go
lines 296-318): the code first calls `m.fromTf.StatePush(ctx, fromState)`
and returns on error; only when that succeeded does it call
`m.toTf.StatePush(ctx, toState)`.  The result is the pair of remote
states after the run together with its success. -/
def applyPushPhase (fromState toState : List String)
    (fromPushOk toPushOk : Bool) (remote : RemotePair) : RemotePair × Bool :=
  if fromPushOk then
    if toPushOk then (RemotePair.mk fromState toState, true)
    else (RemotePair.mk fromState remote.toRemote, false)
  else (remote, false)

/-- The ordered list of `StatePush` calls `MultiStateMigrator.Apply`
attempts (multi_state_migrator.go lines 296-318): the source push comes
first; the destination push only happens when the source push
succeeded. -/
def applyPushAttempts (fromPushOk : Bool) : List PushTarget :=
  if fromPushOk then [PushTarget.sourceState, PushTarget.destState]
  else [PushTarget.sourceState]

/-- Modelled from the spec: a `HistoryRecord`
(`type, name, applied_at, md5_hash`); `history_runner.go` and the history
package are not among the sources.  `applied_at` is an abstract instant. -/
structure Record where
  rtype : String
  rname : String
  appliedAt : Nat
  md5Hash : String
deriving DecidableEq

/-- Modelled from the spec: a parsed migration file as the history runner
sees it (filename, declared type and name, raw content), together with
the outcome its migrator would produce on Plan and on Apply. -/
structure Migration where
  filename : String
  mtype : String
  mname : String
  content : String
  planOk : Bool
  applyOk : Bool
deriving DecidableEq

/-- Modelled from the spec: the mock storage backend used by the history
runner tests — a single blob of history records plus a flag making every
write fail. -/
structure MockStorage where
  data : List (String × Record)
  writeError : Bool
deriving DecidableEq

/-- Modelled from the spec: `storage.Write`; on a write error the stored
blob is left unchanged. -/
def storageWrite (s : MockStorage) (h : List (String × Record)) : MockStorage × Bool :=
  if s.writeError then (s, false) else (MockStorage.mk h s.writeError, true)

/-- Whether a history holds a record for the given filename. -/
def containsKey (k : String) (l : List (String × Record)) : Bool :=
  l.any fun e => e.1 == k

/-- The record appended for a successfully applied migration
(spec 4.7: `type`, `name`, now, `md5_hash`). -/
def recordFor (md5f : String → String) (clock : Nat) (m : Migration) : Record :=
  Record.mk m.mtype m.mname clock (md5f m.content)

/-- The history records appended for a run of successfully applied
migrations, applied at successive instants. -/
def appliedRecords (md5f : String → String) (clock : Nat) :
    List Migration → List (String × Record)
  | [] => []
  | m :: rest => (m.filename, recordFor md5f clock m) :: appliedRecords md5f (clock + 1) rest

/-- Modelled from the spec: the per-file loop of `HistoryRunner.Apply` in
directory mode (spec 4.7): "for each unapplied file in order: load →
`Migrator.Apply(ctx)` → append a record (`type`, `name`, now,
`md5_hash`) → persist history via `storage.Write`.  If a single
migration's apply fails, stop and persist whatever records were already
appended; surface the error.  If the apply succeeded but the history
persist failed, this is a distinct, louder error class." -/
def applyLoop (md5f : String → String) (clock : Nat)
    (hist : List (String × Record)) (s : MockStorage) :
    List Migration → List (String × Record) × MockStorage × Bool
  | [] => (hist, s, true)
  | m :: rest =>
    if m.applyOk then
      let h2 := hist ++ [(m.filename, recordFor md5f clock m)]
      let w := storageWrite s h2
      if w.2 then applyLoop md5f (clock + 1) h2 w.1 rest
      else (h2, w.1, false)
    else (hist, (storageWrite s hist).1, false)

/-- Modelled from the spec: `HistoryRunner.Apply` with a filename argument
(spec 4.7: "with `filename` given, require it to be unapplied and apply
only it"; spec 7: "Already applied — asking to apply a file already in
history is fatal"). -/
def applyFile (md5f : String → String) (clock : Nat) (m : Migration)
    (hist : List (String × Record)) (s : MockStorage) :
    List (String × Record) × MockStorage × Bool :=
  if containsKey m.filename hist then (hist, s, false)
  else applyLoop md5f clock hist s [m]

/-- Modelled from the spec: `updateMissingMD5Hashes` (spec 4.7: "walks
history records; for each whose `md5_hash` is empty and whose file exists
on disk, sets the hash from the file's current content.  Missing files
are skipped silently").  `disk` maps filenames to current contents. -/
def updateMissingMD5Hashes (md5f : String → String)
    (disk : List (String × String)) : List (String × Record) → List (String × Record)
  | [] => []
  | (fn, r) :: rest =>
    (if r.md5Hash == "" then
      match lookupKey fn disk with
      | some content => (fn, Record.mk r.rtype r.rname r.appliedAt (md5f content))
      | none => (fn, r)
    else (fn, r)) :: updateMissingMD5Hashes md5f disk rest

/-- Whether a list of names contains a duplicate. -/
def dupNames : List String → Bool
  | [] => false
  | x :: xs => xs.contains x || dupNames xs

/-- Modelled from the spec: `validateNoDuplicates` (spec 4.7): duplicate
local migration names, duplicate names among history records, duplicate
non-empty `md5_hash` values, and an MD5 mismatch between a local file and
its history record (records with empty hash skip the integrity check) are
all errors. -/
def validateNoDuplicates (md5f : String → String)
    (migrations : List Migration) (hist : List (String × Record)) : Bool :=
  !dupNames (migrations.map fun m => m.mname) &&
  !dupNames (hist.map fun e => e.2.rname) &&
  !dupNames ((hist.map fun e => e.2.md5Hash).filter fun h => !(h == "")) &&
  (migrations.all fun m =>
    match lookupKey m.filename hist with
    | some r => r.md5Hash == "" || md5f m.content == r.md5Hash
    | none => true)

/-- Modelled from the spec: `HistoryRunner.Plan` (spec 4.7): "if
`filename` is given, plan only that migration (skip validation).
Otherwise validate, backfill, and plan every unapplied migration in
order; accumulate errors per file but continue".  The result is the
in-memory history, the storage after the run, and success; Plan never
calls `storage.Write`. -/
def planRun (md5f : String → String) (filename : Option String)
    (migrations : List Migration) (hist : List (String × Record))
    (s : MockStorage) : List (String × Record) × MockStorage × Bool :=
  match filename with
  | some fn =>
    match migrations.find? (fun m => m.filename == fn) with
    | some m => (hist, s, m.planOk)
    | none => (hist, s, false)
  | none =>
    if validateNoDuplicates md5f migrations hist then
      let hist2 := updateMissingMD5Hashes md5f
        (migrations.map fun m => (m.filename, m.content)) hist
      let unapplied := migrations.filter fun m => !(containsKey m.filename hist)
      (hist2, s, unapplied.all fun m => m.planOk)
    else (hist, s, false)

/-- Example fixture for C6, mirroring the "a migration has already been
applied" case of TestHistoryRunnerApply. -/
def md5f6 : String → String := fun s => "md5:" ++ s

/-- Example fixture for C6: the persisted history. -/
def hist6 : List (String × Record) :=
  [("20201109000001_test1.hcl", Record.mk "mock" "test1" 1 ""),
   ("20201109000002_test2.hcl", Record.mk "mock" "test2" 2 "")]

/-- Example fixture for C6: the already-applied migration file. -/
def m6 : Migration :=
  Migration.mk "20201109000002_test2.hcl" "mock" "test2" "content2" true true

/-- Example fixture for C6: the storage holding `hist6`. -/
def s6 : MockStorage := MockStorage.mk hist6 false

/-- Example fixture for C3: a destination-side plan with a single
`[create]` resource change, as produced by moving a resource into the
destination directory. -/
def pj3 : TerraformPlanJSON :=
  TerraformPlanJSON.mk "1.2"
    [ResourceChange.mk "aws_iam_role.a" "managed" "aws_iam_role" "a"
      (Change.mk ["create"] JSON.null (JSON.obj [("id", JSON.str "x")]))]
    []

/-- Example fixture for C5, mirroring the "partial apply error but save
history success" case of TestHistoryRunnerApply. -/
def md5f5 : String → String := fun s => "md5:" ++ s

/-- Example fixture for C5: the unapplied migration that succeeds. -/
def m5c : Migration :=
  Migration.mk "20201109000003_test3.hcl" "mock" "test3" "content3" true true

/-- Example fixture for C5: the unapplied migration whose apply fails. -/
def m5d : Migration :=
  Migration.mk "20201109000004_test4.hcl" "mock" "test4" "content4" true false

/-- Example fixture for C5: the prior history. -/
def hist5 : List (String × Record) :=
  [("20201109000001_test1.hcl", Record.mk "mock" "test1" 1 ""),
   ("20201109000002_test2.hcl", Record.mk "mock" "test2" 2 "")]

/-- Example fixture for C5: the storage holding `hist5`. -/
def s5 : MockStorage := MockStorage.mk hist5 false

/-- Example fixture for C4: a destination-side plan whose only change is
an `[update]` touching only the `tags` field (spec scenario c). -/
def pj4 : TerraformPlanJSON :=
  TerraformPlanJSON.mk "1.2"
    [ResourceChange.mk "aws_instance.a" "managed" "aws_instance" "a"
      (Change.mk ["update"]
        (JSON.obj [("id", JSON.str "x"), ("tags", JSON.obj [("a", JSON.str "1")])])
        (JSON.obj [("id", JSON.str "x"), ("tags", JSON.obj [("a", JSON.str "2")])]))]
    []

/-! ## Theorems -/

/-- C1: the claim (and the code's own comment at multi_state_migrator.go
line 307) says the destination state is pushed before the source state,
so that a failure between the two pushes never leaves a moved resource
untracked by both states.  The code does the opposite: the source push
comes first, and in the concrete run below (resource `aws_iam_role.a`
moved from source to destination, source push succeeds, destination push
fails) the resource ends up tracked by neither remote state. -/
theorem multiStateApply_pushes_source_first :
    applyPushAttempts true = [PushTarget.sourceState, PushTarget.destState] ∧
    applyPushAttempts false = [PushTarget.sourceState] ∧
    applyPushPhase [] ["aws_iam_role.a"] true false
        (RemotePair.mk ["aws_iam_role.a"] []) =
      (RemotePair.mk [] [], false) ∧
    ("aws_iam_role.a" ∉ (applyPushPhase [] ["aws_iam_role.a"] true false
        (RemotePair.mk ["aws_iam_role.a"] [])).1.fromRemote ∧
     "aws_iam_role.a" ∉ (applyPushPhase [] ["aws_iam_role.a"] true false
        (RemotePair.mk ["aws_iam_role.a"] [])).1.toRemote) := by
  refine ⟨rfl, rfl, rfl, by simp [applyPushPhase], by simp [applyPushPhase]⟩

/-- C2 counterexample: with the source-side plan rejected
(`fromClean = false`), neither plan skipped, and `force` set,
`MultiStateMigrator.plan` still fails — `force` does not downgrade a
source-side rejection, contradicting the claim's "regardless of whether
the rejection came from the source or the destination". -/
theorem multiStatePlan_force_ignores_source_rejection :
    multiStatePlanOk false false true false true = false := rfl

/-- C2 (amended): a destination-side plan rejection is downgraded to a
warning exactly when `force` is set, while a source-side rejection is an
error regardless of `force`; a skipped plan is never checked. -/
theorem multiStatePlanOk_characterization :
    ∀ fromSkipPlan toSkipPlan force fromClean toClean,
      multiStatePlanOk fromSkipPlan toSkipPlan force fromClean toClean =
        ((fromSkipPlan || fromClean) && (toSkipPlan || toClean || force)) := by
  decide

/-- C8: `HasOnlyOutputChanges` returns true iff the output-changes mapping
is non-empty and every resource change's actions are exactly `[no-op]`. -/
theorem hasOnlyOutputChanges_iff (p : TerraformPlanJSON) :
    hasOnlyOutputChanges p = true ↔
      (p.outputChanges ≠ [] ∧
       ∀ rc ∈ p.resourceChanges, rc.change.actions = ["no-op"]) := by
  unfold hasOnlyOutputChanges
  rw [Bool.and_eq_true, List.all_eq_true]
  constructor
  · rintro ⟨h1, h2⟩
    refine ⟨?_, fun rc hrc => by simpa using h1 rc hrc⟩
    have : 0 < p.outputChanges.length := by simpa using h2
    exact List.length_pos.mp this
  · rintro ⟨h1, h2⟩
    refine ⟨fun rc hrc => by simpa using h2 rc hrc, ?_⟩
    simpa using List.length_pos.mpr h1

/-- C10: `HistoryRunner.Plan` — with or without a filename, succeeding or
failing, and even when MD5 backfill updates the in-memory records — never
writes to the history storage: the storage after the run is exactly the
storage before it. -/
theorem planRun_storage_unchanged (md5f : String → String)
    (filename : Option String) (migrations : List Migration)
    (hist : List (String × Record)) (s : MockStorage) :
    (planRun md5f filename migrations hist s).2.1 = s := by
  unfold planRun
  split <;> split <;> rfl

/-- C6: asking Apply to run a filename that already has a record in the
history is an error, and both the in-memory history and the persisted
storage are left exactly unchanged. -/
theorem applyFile_already_applied (md5f : String → String) (clock : Nat)
    (m : Migration) (hist : List (String × Record)) (s : MockStorage)
    (h : containsKey m.filename hist = true) :
    applyFile md5f clock m hist s = (hist, s, false) := by
  unfold applyFile
  simp [h]

/-- C6 witness: applying the already-recorded `20201109000002_test2.hcl`
fails and leaves the storage untouched. -/
theorem applyFile_already_applied_witness :
    containsKey m6.filename hist6 = true ∧
    applyFile md5f6 3 m6 hist6 s6 = (hist6, s6, false) :=
  ⟨rfl, applyFile_already_applied md5f6 3 m6 hist6 s6 rfl⟩

/-- A plan has no changes exactly when every resource change is a
`no-op`. -/
lemma hasChanges_eq_false_iff (p : TerraformPlanJSON) :
    hasChanges p = false ↔ ∀ rc ∈ p.resourceChanges, rc.change.actions = ["no-op"] := by
  unfold hasChanges
  simp

/-- Unfolding of an accepted `HasOnlySafeActions` verdict into the three
allowed shapes, with the code's own `isTagOnlyChange` predicate. -/
lemma hasOnlySafeActions_forall (p : TerraformPlanJSON)
    (h : hasOnlySafeActions p = true) :
    ∀ rc ∈ p.resourceChanges,
      rc.change.actions = ["no-op"] ∨ rc.change.actions = ["create"] ∨
        (rc.change.actions = ["update"] ∧ isTagOnlyChange rc = true) := by
  intro rc hrc
  have hcell := List.all_eq_true.mp h rc hrc
  cases hb0 : (rc.change.actions == ["no-op"]) with
  | true => exact Or.inl (by simpa using hb0)
  | false =>
    rw [hb0] at hcell
    cases hb1 : (rc.change.actions == ["create"]) with
    | true => exact Or.inr (Or.inl (by simpa using hb1))
    | false =>
      rw [hb1] at hcell
      cases hb2 : (rc.change.actions == ["update"]) with
      | true =>
        rw [hb2] at hcell
        simp at hcell
        exact Or.inr (Or.inr ⟨(by simpa using hb2), hcell⟩)
      | false =>
        rw [hb2] at hcell
        simp at hcell

/-- C3: every plan JSON accepted by `checkPlan` on the diff path (exit
code 2): with `allowCreate = false` (the source state) every resource
change's actions are exactly `[no-op]`; with `allowCreate = true` (the
destination state) every resource change is exactly `[no-op]`, exactly
`[create]`, or exactly `[update]` where the change is tag-only. -/
theorem checkPlan_accepted_actions (pj : TerraformPlanJSON) (allowCreate : Bool)
    (h : checkPlan (some pj) PlanErr.exitTwo allowCreate = true) :
    ∀ rc ∈ pj.resourceChanges,
      (allowCreate = false → rc.change.actions = ["no-op"]) ∧
      (allowCreate = true →
        rc.change.actions = ["no-op"] ∨ rc.change.actions = ["create"] ∨
          (rc.change.actions = ["update"] ∧ isTagOnlyChange rc = true)) := by
  intro rc hrc
  have h2 : (if (!hasChanges pj) = true then true
      else if (allowCreate && hasOnlySafeActions pj) = true then true
      else false) = true := h
  cases hch : hasChanges pj with
  | false =>
    have hall := (hasChanges_eq_false_iff pj).mp hch
    exact ⟨fun _ => hall rc hrc, fun _ => Or.inl (hall rc hrc)⟩
  | true =>
    rw [hch] at h2
    simp at h2
    obtain ⟨hac, hsafe⟩ := h2
    subst hac
    refine ⟨(fun hcontra => by cases hcontra), fun _ => ?_⟩
    exact hasOnlySafeActions_forall pj hsafe rc hrc

/-- C3 witness: the fixture plan is accepted with `allowCreate = true` and
its only change is a `[create]`. -/
theorem checkPlan_accepted_actions_witness :
    checkPlan (some pj3) PlanErr.exitTwo true = true ∧
    ∀ rc ∈ pj3.resourceChanges,
      (true = false → rc.change.actions = ["no-op"]) ∧
      (true = true →
        rc.change.actions = ["no-op"] ∨ rc.change.actions = ["create"] ∨
          (rc.change.actions = ["update"] ∧ isTagOnlyChange rc = true)) :=
  ⟨rfl, checkPlan_accepted_actions pj3 true rfl⟩

/-- The character expansion of a `-target=` option. -/
lemma target_append_data (u : String) :
    ("-target=" ++ u).data =
      '-' :: 't' :: 'a' :: 'r' :: 'g' :: 'e' :: 't' :: '=' :: u.data := rfl

/-- None of the base plan options is a `-target` option. -/
lemma base_opt_ne_target (planOut : String) :
    ∀ s ∈ basePlanOptions planOut, ∀ u : String, s ≠ "-target=" ++ u := by
  intro s hs u hcontra
  have hd := congrArg String.data hcontra
  rw [target_append_data] at hd
  unfold basePlanOptions at hs
  by_cases hpo : (planOut != "") = true
  · rw [if_pos hpo] at hs
    simp only [List.mem_append, List.mem_cons, List.not_mem_nil, or_false] at hs
    rcases hs with (h | h | h) | h
    · subst h
      injection hd with h1 h2
      injection h2 with h3 h4
      exact absurd h3 (by decide)
    · subst h
      injection hd with h1 h2
      injection h2 with h3 h4
      exact absurd h3 (by decide)
    · subst h
      injection hd with h1 h2
      injection h2 with h3 h4
      exact absurd h3 (by decide)
    · subst h
      have hd2 : ('-' :: 'o' :: 'u' :: 't' :: '=' :: planOut.data : List Char) =
          '-' :: 't' :: 'a' :: 'r' :: 'g' :: 'e' :: 't' :: '=' :: u.data := hd
      injection hd2 with h1 h2
      injection h2 with h3 h4
      exact absurd h3 (by decide)
  · rw [if_neg hpo] at hs
    simp only [List.mem_cons, List.not_mem_nil, or_false] at hs
    rcases hs with h | h | h
    · subst h
      injection hd with h1 h2
      injection h2 with h3 h4
      exact absurd h3 (by decide)
    · subst h
      injection hd with h1 h2
      injection h2 with h3 h4
      exact absurd h3 (by decide)
    · subst h
      injection hd with h1 h2
      injection h2 with h3 h4
      exact absurd h3 (by decide)

/-- C9: with a non-empty `from_tf_target`, the source-side plan receives
the base options plus `-target=<from_tf_target>`, while the
destination-side plan receives exactly the base options, which contain no
`-target` option. -/
theorem fromToPlanOptions (planOut fromTfTarget : String)
    (ht : fromTfTarget ≠ "") :
    fromPlanOptions (basePlanOptions planOut) fromTfTarget =
      basePlanOptions planOut ++ ["-target=" ++ fromTfTarget] ∧
    toPlanOptions (basePlanOptions planOut) = basePlanOptions planOut ∧
    ∀ s ∈ toPlanOptions (basePlanOptions planOut), ∀ u : String,
      s ≠ "-target=" ++ u := by
  refine ⟨?_, rfl, base_opt_ne_target planOut⟩
  unfold fromPlanOptions
  simp [ht]

/-- C9 witness: concrete options with a plan-out file and source target
`aws_iam_role.a`. -/
theorem fromToPlanOptions_witness :
    ("aws_iam_role.a" : String) ≠ "" ∧
    (fromPlanOptions (basePlanOptions "plan.out") "aws_iam_role.a" =
      basePlanOptions "plan.out" ++ ["-target=" ++ "aws_iam_role.a"] ∧
    toPlanOptions (basePlanOptions "plan.out") = basePlanOptions "plan.out" ∧
    ∀ s ∈ toPlanOptions (basePlanOptions "plan.out"), ∀ u : String,
      s ≠ "-target=" ++ u) :=
  ⟨by decide, fromToPlanOptions "plan.out" "aws_iam_role.a" (by decide)⟩

/-- `containsKey` distributes over list append. -/
lemma containsKey_append (k : String) (a b : List (String × Record)) :
    containsKey k (a ++ b) = (containsKey k a || containsKey k b) := by
  simp [containsKey, List.any_append]

/-- The records appended for migrations whose filenames all differ from
`k` never contain `k`. -/
lemma containsKey_appliedRecords_eq_false (md5f : String → String) (k : String) :
    ∀ (clock : Nat) (ms : List Migration),
      (ms.all fun m => !(m.filename == k)) = true →
      containsKey k (appliedRecords md5f clock ms) = false := by
  intro clock ms
  induction ms generalizing clock with
  | nil => intro _; rfl
  | cons m rest ih =>
    intro hall
    rw [List.all_cons, Bool.and_eq_true] at hall
    have h1 : (m.filename == k) = false := by
      cases hmk : (m.filename == k)
      · rfl
      · rw [hmk] at hall
        exact absurd hall.1 (by decide)
    calc containsKey k (appliedRecords md5f clock (m :: rest))
        = ((m.filename == k) ||
            containsKey k (appliedRecords md5f (clock + 1) rest)) := rfl
      _ = containsKey k (appliedRecords md5f (clock + 1) rest) := by rw [h1]; simp
      _ = false := ih (clock + 1) hall.2

/-- Running the apply loop over successfully applying migrations followed
by a failing one: the loop consumes the successful prefix, persisting
each appended record, and halts at the failure. -/
lemma applyLoop_eq_helper (md5f : String → String) (pre : List Migration) :
    ∀ (clock : Nat) (h0 : List (String × Record)) (s0 : MockStorage)
      (rest : List Migration) (mfail : Migration),
      (pre.all fun m => m.applyOk) = true →
      mfail.applyOk = false →
      s0.writeError = false →
      applyLoop md5f clock h0 s0 (pre ++ mfail :: rest) =
        (h0 ++ appliedRecords md5f clock pre,
         MockStorage.mk (h0 ++ appliedRecords md5f clock pre) false, false) := by
  induction pre with
  | nil =>
    intro clock h0 s0 rest mfail _ hfail hw
    show applyLoop md5f clock h0 s0 (mfail :: rest) = _
    unfold applyLoop
    rw [hfail]
    simp [storageWrite, hw, appliedRecords]
  | cons m pre2 ih =>
    intro clock h0 s0 rest mfail hpre hfail hw
    rw [List.all_cons, Bool.and_eq_true] at hpre
    obtain ⟨hm, hpre2⟩ := hpre
    show applyLoop md5f clock h0 s0 (m :: (pre2 ++ mfail :: rest)) = _
    unfold applyLoop
    rw [hm]
    simp only [if_true, storageWrite, hw, Bool.false_eq_true, if_false]
    rw [ih (clock + 1) (h0 ++ [(m.filename, recordFor md5f clock m)])
      (MockStorage.mk (h0 ++ [(m.filename, recordFor md5f clock m)]) false)
      rest mfail hpre2 hfail rfl]
    simp [appliedRecords, List.append_assoc]

/-- C5: applying a directory's unapplied migrations in order, when the
migrations before `mfail` succeed and `mfail`'s apply fails: the run
stops at `mfail` with an error, the records appended for the successful
prefix are persisted to storage, and no record for `mfail` (nor for
anything after it) is added. -/
theorem applyLoop_stops_at_failure (md5f : String → String) (clock : Nat)
    (h0 : List (String × Record)) (s0 : MockStorage)
    (pre rest : List Migration) (mfail : Migration)
    (hpre : (pre.all fun m => m.applyOk) = true)
    (hfail : mfail.applyOk = false)
    (hw : s0.writeError = false) :
    applyLoop md5f clock h0 s0 (pre ++ mfail :: rest) =
      (h0 ++ appliedRecords md5f clock pre,
       MockStorage.mk (h0 ++ appliedRecords md5f clock pre) false, false) ∧
    ((containsKey mfail.filename h0 = false ∧
      (pre.all fun m => !(m.filename == mfail.filename)) = true) →
      containsKey mfail.filename (h0 ++ appliedRecords md5f clock pre) = false) := by
  constructor
  · exact applyLoop_eq_helper md5f pre clock h0 s0 rest mfail hpre hfail hw
  · rintro ⟨hk0, hkpre⟩
    rw [containsKey_append, hk0,
      containsKey_appliedRecords_eq_false md5f mfail.filename clock pre hkpre]
    rfl

/-- C5 witness: with history `test1,test2`, applying `test3` (succeeds)
then `test4` (fails) persists exactly `test1,test2,test3` and surfaces
the error, with no record for `test4`. -/
theorem applyLoop_stops_at_failure_witness :
    applyLoop md5f5 3 hist5 s5 ([m5c] ++ m5d :: []) =
      (hist5 ++ appliedRecords md5f5 3 [m5c],
       MockStorage.mk (hist5 ++ appliedRecords md5f5 3 [m5c]) false, false) ∧
    ((containsKey m5d.filename hist5 = false ∧
      ([m5c].all fun m => !(m.filename == m5d.filename)) = true) →
      containsKey m5d.filename (hist5 ++ appliedRecords md5f5 3 [m5c]) = false) :=
  applyLoop_stops_at_failure md5f5 3 hist5 s5 [m5c] [] m5d rfl rfl rfl

/-- C7: `updateMissingMD5Hashes` maps each history record, in place and
in order, to: the same record with its hash set from the file's current
content when the hash was empty and the file exists on disk; the
unchanged record (hash still empty, no error) when the hash was empty
but the file is missing; and the unchanged record whenever its hash was
already non-empty (never overwritten). -/
theorem updateMissingMD5Hashes_pointwise (md5f : String → String)
    (disk : List (String × String)) (hist : List (String × Record)) :
    List.Forall₂ (fun e e2 =>
      e2.1 = e.1 ∧
      (e.2.md5Hash = "" → ∀ c, lookupKey e.1 disk = some c →
        e2.2 = Record.mk e.2.rtype e.2.rname e.2.appliedAt (md5f c)) ∧
      (e.2.md5Hash = "" → lookupKey e.1 disk = none → e2 = e) ∧
      (e.2.md5Hash ≠ "" → e2 = e))
      hist (updateMissingMD5Hashes md5f disk hist) := by
  induction hist with
  | nil => exact List.Forall₂.nil
  | cons e rest ih =>
    obtain ⟨fn, r⟩ := e
    by_cases hh : r.md5Hash = ""
    · have hb : (r.md5Hash == "") = true := by simpa using hh
      cases hlk : lookupKey fn disk with
      | some c =>
        simp only [updateMissingMD5Hashes, hb, if_true, hlk]
        refine List.Forall₂.cons ⟨rfl, ?_, ?_, ?_⟩ ih
        · intro _ c2 hc2
          rw [hlk] at hc2
          injection hc2 with hcc
          rw [hcc]
        · intro _ hn
          rw [hlk] at hn
          exact Option.noConfusion hn
        · intro hne
          exact absurd hh hne
      | none =>
        simp only [updateMissingMD5Hashes, hb, if_true, hlk]
        refine List.Forall₂.cons ⟨rfl, ?_, ?_, ?_⟩ ih
        · intro _ c2 hc2
          rw [hlk] at hc2
          exact Option.noConfusion hc2
        · intro _ _
          rfl
        · intro hne
          exact absurd hh hne
    · have hb : (r.md5Hash == "") = false := by simpa using hh
      simp only [updateMissingMD5Hashes, hb, Bool.false_eq_true, if_false]
      refine List.Forall₂.cons ⟨rfl, ?_, ?_, ?_⟩ ih
      · intro hcon
        exact absurd hcon hh
      · intro hcon
        exact absurd hcon hh
      · intro _
        rfl

/-- A successful `lookupKey` pinpoints a member of the list. -/
lemma lookupKey_mem {α : Type} (k : String) (v : α) :
    ∀ l : List (String × α), lookupKey k l = some v → (k, v) ∈ l := by
  intro l
  induction l with
  | nil => intro h; exact Option.noConfusion h
  | cons e rest ih =>
    obtain ⟨k2, v2⟩ := e
    intro h
    unfold lookupKey at h
    by_cases hk : (k == k2) = true
    · rw [if_pos hk] at h
      injection h with hv
      have hkk : k = k2 := by simpa using hk
      exact List.mem_cons.mpr (Or.inl (by rw [hkk, hv]))
    · rw [if_neg hk] at h
      exact List.mem_cons_of_mem _ (ih h)

/-- A key that occurs in the list is found by `lookupKey` (with some
value). -/
lemma lookupKey_isSome_of_mem {α : Type} (k : String) (v : α) :
    ∀ l : List (String × α), (k, v) ∈ l → ∃ w, lookupKey k l = some w := by
  intro l
  induction l with
  | nil => intro h; simp at h
  | cons e rest ih =>
    obtain ⟨k2, v2⟩ := e
    intro h
    by_cases hk : (k == k2) = true
    · exact ⟨v2, by unfold lookupKey; rw [if_pos hk]⟩
    · rcases List.mem_cons.mp h with he | he
      · have hkk : k = k2 := congrArg Prod.fst he
        exact absurd (by simp [hkk]) hk
      · obtain ⟨w, hw⟩ := ih he
        exact ⟨w, by unfold lookupKey; rw [if_neg hk]; exact hw⟩

/-- Under pairwise-distinct keys, `lookupKey` finds exactly the member's
value (the association list behaves as a Go map). -/
lemma lookupKey_of_mem_nodup {α : Type} (k : String) (v : α) :
    ∀ l : List (String × α), keysNodup l = true → (k, v) ∈ l →
      lookupKey k l = some v := by
  intro l
  induction l with
  | nil => intro _ h; simp at h
  | cons e rest ih =>
    obtain ⟨k2, v2⟩ := e
    intro hn h
    unfold keysNodup at hn
    rw [Bool.and_eq_true] at hn
    rcases List.mem_cons.mp h with he | he
    · have hk : k = k2 := congrArg Prod.fst he
      have hv : v = v2 := congrArg Prod.snd he
      unfold lookupKey
      rw [if_pos (by simp [hk]), hv]
    · have hk : (k == k2) = false := by
        cases hkb : (k == k2) with
        | false => rfl
        | true =>
          have hkk : k = k2 := by simpa using hkb
          subst hkk
          have hmem : (rest.any fun e => e.1 == k) = true :=
            List.any_eq_true.mpr ⟨(k, v), he, by simp⟩
          rw [hmem] at hn
          exact absurd hn.1 (by decide)
      unfold lookupKey
      rw [if_neg (by simp [hk])]
      exact ih hn.2 he

/-- The code's tag-only heuristic agrees with the spec's formulation on
every change whose object sides have pairwise-distinct keys (always true
for decoded Go maps). -/
lemma isTagOnlyChange_iff_spec (rc : ResourceChange)
    (hb : objNodup rc.change.before = true)
    (_ha : objNodup rc.change.after = true) :
    isTagOnlyChange rc = true ↔ specTagOnly rc := by
  by_cases hobj : ∃ bMap aMap,
    rc.change.before = JSON.obj bMap ∧ rc.change.after = JSON.obj aMap
  · obtain ⟨bMap, aMap, hB, hA⟩ := hobj
    rw [hB] at hb
    have hbn : keysNodup bMap = true := hb
    have h2 : isTagOnlyChange rc =
      ((bMap.all fun kv =>
        match lookupKey kv.1 aMap with
        | none => isTagField kv.1 tagFields
        | some afterVal => deepEqual kv.2 afterVal || isTagField kv.1 tagFields)
      &&
      (aMap.all fun kv =>
        match lookupKey kv.1 bMap with
        | some _ => true
        | none => isTagField kv.1 tagFields)) := by
      unfold isTagOnlyChange
      rw [hB, hA]
    rw [h2]
    constructor
    · intro h
      rw [Bool.and_eq_true] at h
      refine ⟨bMap, aMap, hB, hA, ?_⟩
      intro k hdiff
      cases hLB : lookupKey k bMap with
      | some v =>
        cases hLA : lookupKey k aMap with
        | some w =>
          have hd : deepEqual v w = false := by
            unfold specDiffersAt at hdiff
            rw [hLB, hLA] at hdiff
            exact hdiff
          have hmem := lookupKey_mem k v bMap hLB
          have hcell := List.all_eq_true.mp h.1 (k, v) hmem
          simp only [hLA] at hcell
          rw [hd] at hcell
          simpa using hcell
        | none =>
          have hmem := lookupKey_mem k v bMap hLB
          have hcell := List.all_eq_true.mp h.1 (k, v) hmem
          simp only [hLA] at hcell
          exact hcell
      | none =>
        cases hLA : lookupKey k aMap with
        | some w =>
          have hmem := lookupKey_mem k w aMap hLA
          have hcell := List.all_eq_true.mp h.2 (k, w) hmem
          simp only [hLB] at hcell
          exact hcell
        | none =>
          unfold specDiffersAt at hdiff
          rw [hLB, hLA] at hdiff
          exact hdiff.elim
    · rintro ⟨bs, as2, hB2, hA2, hspec⟩
      rw [hB] at hB2
      rw [hA] at hA2
      injection hB2 with hbs
      injection hA2 with has2
      subst hbs
      subst has2
      rw [Bool.and_eq_true]
      constructor
      · rw [List.all_eq_true]
        rintro ⟨k, v⟩ hmem
        have hLB : lookupKey k bMap = some v :=
          lookupKey_of_mem_nodup k v bMap hbn hmem
        cases hLA : lookupKey k aMap with
        | none =>
          have hdf : specDiffersAt bMap aMap k := by
            unfold specDiffersAt
            rw [hLB, hLA]
            trivial
          have := hspec k hdf
          simp only [hLA]
          exact this
        | some w =>
          simp only [hLA]
          cases hde : deepEqual v w with
          | true => simp
          | false =>
            have hdf : specDiffersAt bMap aMap k := by
              unfold specDiffersAt
              rw [hLB, hLA]
              exact hde
            have := hspec k hdf
            simp [this]
      · rw [List.all_eq_true]
        rintro ⟨k, w⟩ hmem
        cases hLB : lookupKey k bMap with
        | some v => simp only [hLB]
        | none =>
          obtain ⟨w2, hw2⟩ := lookupKey_isSome_of_mem k w aMap hmem
          have hdf : specDiffersAt bMap aMap k := by
            unfold specDiffersAt
            rw [hLB, hw2]
            trivial
          have := hspec k hdf
          simp only [hLB]
          exact this
  · have h1 : isTagOnlyChange rc = false := by
      unfold isTagOnlyChange
      cases hB : rc.change.before <;> cases hA : rc.change.after <;> try rfl
      exact absurd ⟨_, _, hB, hA⟩ hobj
    have h2 : ¬ specTagOnly rc := by
      rintro ⟨bs, as2, hB2, hA2, _⟩
      exact hobj ⟨bs, as2, hB2, hA2⟩
    rw [h1]
    exact iff_of_false (by simp) h2

/-- C4: `HasOnlySafeActions` is true exactly when every resource change
whose actions are not `[no-op]` is exactly `[create]`, or exactly
`[update]` where the change is tag-only in the spec's sense: both sides
are mappings and every key whose value differs (changed, added, or
removed under structural deep equality) lies in the tag-field set;
non-mapping sides are never tag-only. -/
theorem hasOnlySafeActions_iff_spec (p : TerraformPlanJSON)
    (hwf : ∀ rc ∈ p.resourceChanges,
      objNodup rc.change.before = true ∧ objNodup rc.change.after = true) :
    hasOnlySafeActions p = true ↔
      ∀ rc ∈ p.resourceChanges, rc.change.actions ≠ ["no-op"] →
        (rc.change.actions = ["create"] ∨
         (rc.change.actions = ["update"] ∧ specTagOnly rc)) := by
  constructor
  · intro h rc hrc hne
    rcases hasOnlySafeActions_forall p h rc hrc with h0 | h1 | ⟨h2, h3⟩
    · exact absurd h0 hne
    · exact Or.inl h1
    · exact Or.inr ⟨h2,
        (isTagOnlyChange_iff_spec rc (hwf rc hrc).1 (hwf rc hrc).2).mp h3⟩
  · intro h
    unfold hasOnlySafeActions
    rw [List.all_eq_true]
    intro rc hrc
    by_cases h0 : rc.change.actions = ["no-op"]
    · simp [h0]
    · rcases h rc hrc h0 with hc | ⟨hu, hspec⟩
      · rw [hc]
        simp
      · have htag : isTagOnlyChange rc = true :=
          (isTagOnlyChange_iff_spec rc (hwf rc hrc).1 (hwf rc hrc).2).mpr hspec
        rw [hu]
        simp [htag]

/-- C4 witness: the fixture plan's single tag-only update satisfies the
key-distinctness side conditions and the equivalence at them. -/
theorem hasOnlySafeActions_iff_spec_witness :
    (∀ rc ∈ pj4.resourceChanges,
      objNodup rc.change.before = true ∧ objNodup rc.change.after = true) ∧
    (hasOnlySafeActions pj4 = true ↔
      ∀ rc ∈ pj4.resourceChanges, rc.change.actions ≠ ["no-op"] →
        (rc.change.actions = ["create"] ∨
         (rc.change.actions = ["update"] ∧ specTagOnly rc))) :=
  ⟨(by decide), hasOnlySafeActions_iff_spec pj4 (by decide)⟩

end TfMigrate
